import Mathlib

/-!
# Verification of the md5rs media-analysis pipeline core

Shallow embedding, in Lean 4, of the parts of the `md5rs` Rust sources that
the specification's testable claims are about:

* `src/utils.rs` — `Bbox`, `iou`, `nms`, `sample_evenly`, `is_video_photo`;
* `src/media.rs` — `is_hidden_file`, `media_worker` emission behaviour,
  `resize_with_pad` letterbox geometry, `handle_ffmpeg_output` sampling;
* `src/detect.rs` — the per-detection rescale/clip, `get_label`, the
  `ExportFrame` constructors of `process_frames` / `process_batch`;
* `src/export.rs` — `export_worker` checkpointing and the (non-truncating)
  file-write semantics of `write_json` / `write_csv`;
* `src/main.rs` — the `resume_from_checkpoint` reconciliation loop.

Modelling conventions: Rust `f32`/`f64` arithmetic is embedded as exact
rational (`ℚ`) arithmetic — every numeric operation the claims depend on
(affine rescale, clamp, IoU ratio, division-and-floor) is mirrored
structurally; `usize`/`u32` become `ℕ` (with `ℕ` truncated subtraction and
floor division matching the source in all non-underflowing uses); file paths
become `String`; external collaborators (image decoder, ffmpeg transcoder,
EXIF reader, serde serialisers, the ONNX detector) are parameters of the
embedding, as the specification itself treats them as black boxes.
Pixel payloads are irrelevant to every claim and omitted from `Frame`.
-/

namespace Md5rs

/-- `Bbox` from `src/utils.rs`: axis-aligned detection box.  The Rust field
`class` is a Lean keyword and is rendered `cls`. -/
structure Bbox where
  x1 : ℚ
  y1 : ℚ
  x2 : ℚ
  y2 : ℚ
  score : ℚ
  cls : ℕ
deriving DecidableEq, Repr

/-- `Bbox::area` from `src/utils.rs`. -/
def Bbox.area (b : Bbox) : ℚ := (b.x2 - b.x1) * (b.y2 - b.y1)

/-- `iou` from `src/utils.rs`: intersection over union, with zero union
mapped to 0. -/
def iou (box1 box2 : Bbox) : ℚ :=
  let x1 := max box1.x1 box2.x1
  let y1 := max box1.y1 box2.y1
  let x2 := min box1.x2 box2.x2
  let y2 := min box1.y2 box2.y2
  let intersection_area := max (x2 - x1) 0 * max (y2 - y1) 0
  let union_area := box1.area + box2.area - intersection_area
  if union_area = 0 then 0 else intersection_area / union_area

/-- The score-descending comparison used by `boxes.sort_by(|a, b|
b.score.partial_cmp(&a.score).unwrap())` in `nms` (`src/utils.rs`).  On `ℚ`
the comparison is total, so the `unwrap` never panics. -/
def scoreDesc (a b : Bbox) : Bool := decide (b.score ≤ a.score)

/-- The sorting step of `nms`: Rust's `sort_by` is a stable merge sort,
embedded as `List.mergeSort`. -/
def sortByScoreDesc (boxes : List Bbox) : List Bbox :=
  boxes.mergeSort scoreDesc

/-- The greedy suppression loop of `nms` (`src/utils.rs`), agnostic mode:
take the highest-scoring remaining box, append it to the result, stop if the
result has reached `topk`, otherwise drop every remaining box whose IoU with
it is `≥ iou_threshold`.  The Rust loop carries the growing `result` vector;
here `topk` is the remaining quota (`topk - result.len()`), which is the
same test: after pushing, `result.len() ≥ topk` iff the quota was `≤ 1`. -/
def nmsLoop (boxes : List Bbox) (topk : ℕ) (iou_threshold : ℚ) : List Bbox :=
  match boxes with
  | [] => []
  | best :: rest =>
    if topk ≤ 1 then [best]
    else best ::
      nmsLoop (rest.filter fun b => decide (iou best b < iou_threshold))
        (topk - 1) iou_threshold
termination_by boxes.length
decreasing_by
  simp only [List.length_cons]
  exact Nat.lt_succ_of_le (List.filter_sublist rest).length_le

/-- The first-appearance order of the classes of a box list.  This models
the iteration order of the `HashMap<usize, Vec<Bbox>>` that class-specific
`nms` builds: the real `HashMap` iterates in an unspecified (hash-seeded)
order, so any fixed order is one of its possible behaviours; conclusions
that depend on the block order are flagged where they arise. -/
def classesIn (boxes : List Bbox) : List ℕ :=
  boxes.foldl (fun acc b => if b.cls ∈ acc then acc else acc ++ [b.cls]) []

/-- `nms` from `src/utils.rs`.  Sort by descending score; in agnostic mode
run the greedy loop on the whole list; in class-specific mode partition by
class and run the greedy loop per class with `topk` applied per class (the
Rust `result.iter().filter(|b| b.class == best.class).count() ≥ topk` test
counts exactly the boxes this class's loop has pushed). -/
def nms (boxes : List Bbox) (agnostic : Bool) (topk : ℕ)
    (iou_threshold : ℚ) : List Bbox :=
  let sorted := sortByScoreDesc boxes
  if agnostic then
    nmsLoop sorted topk iou_threshold
  else
    (classesIn sorted).flatMap fun c =>
      nmsLoop (sorted.filter fun b => decide (b.cls = c)) topk iou_threshold

/-- `sample_evenly` from `src/utils.rs`.  `step = len / sample_size` as real
division and `index = floor(i * step)`: over exact arithmetic
`⌊i · (len / sample_size)⌋ = (i * len) / sample_size` in `ℕ` floor
division.  Empty input or zero sample size yield empty output.  The Rust
indexing `list[index]` is embedded as `getD` (the index is proved in bounds
where it matters). -/
def sample_evenly {α : Type} [Inhabited α] (list : List α) (sample_size : ℕ) :
    List α × List ℕ :=
  if sample_size = 0 ∨ list.length = 0 then ([], [])
  else
    let sampled_indexes := (List.range sample_size).map
      fun i => i * list.length / sample_size
    (sampled_indexes.map fun index => list.getD index default, sampled_indexes)

/-- `FileItem` from `src/utils.rs`; `file_path` is modelled as a `String`.
The derived Rust `PartialEq`/`Hash` compare all three fields, matching
Lean's `DecidableEq` on the structure. -/
structure FileItem where
  folder_id : ℕ
  file_id : ℕ
  file_path : String
deriving DecidableEq, Repr

/-- The final path component, as in Rust `Path::file_name` (the part after
the last `/`), computed structurally on the character list. -/
def fileNameOf (p : String) : String :=
  String.mk (p.data.foldl (fun acc c => if c = '/' then [] else acc ++ [c]) [])

/-- The part of a file name after its last dot (only meaningful when the
name contains a dot). -/
def afterLastDot (n : List Char) : List Char :=
  n.foldl (fun acc c => if c = '.' then [] else acc ++ [c]) []

/-- Rust `Path::extension` semantics on the file name: `None` when there is
no dot, or when the only dot is the leading dot of a hidden file; otherwise
the substring after the last dot. -/
def pathExtension (p : String) : Option String :=
  let n := (fileNameOf p).data
  let body := match n with
    | '.' :: rest => rest
    | _ => n
  if body.contains '.' then some (String.mk (afterLastDot n)) else none

/-- ASCII lowercase, modelling Rust `str::to_lowercase` on the (ASCII)
extension strings it is applied to. -/
def toLowerAscii (s : String) : String :=
  String.mk (s.data.map Char.toLower)

/-- The video-extension match arm `"mp4" | "avi" | "mkv" | "mov"` shared by
`is_video_photo` (`src/utils.rs`) and `media_worker` (`src/media.rs`). -/
def videoExts : List String := ["mp4", "avi", "mkv", "mov"]

/-- The image-extension match arm `"jpg" | "jpeg" | "png"` shared by
`is_video_photo` (`src/utils.rs`) and `media_worker` (`src/media.rs`). -/
def imageExts : List String := ["jpg", "jpeg", "png"]

/-- `is_video_photo` from `src/utils.rs`: acceptance test of the indexer. -/
def is_video_photo (path : String) : Bool :=
  match pathExtension path with
  | some extension =>
    decide (toLowerAscii extension ∈ videoExts) ||
      decide (toLowerAscii extension ∈ imageExts)
  | none => false

/-- `is_hidden_file` from `src/media.rs`: the file name starts with a dot. -/
def is_hidden_file (file_path : String) : Bool :=
  match (fileNameOf file_path).data with
  | '.' :: _ => true
  | _ => false

/-- `Frame` from `src/media.rs`.  The pixel tensor `data` plays no role in
any claim and is omitted; `shoot_time` keeps only its `Option` shape (the
formatted timestamp is a `String`). -/
structure Frame where
  file : FileItem
  width : ℕ
  height : ℕ
  padding : ℕ × ℕ
  ratio : ℚ
  iframe_index : ℕ
  total_frames : ℕ
  shoot_time : Option String
deriving DecidableEq, Repr

/-- `ErrFile` from `src/media.rs`. -/
structure ErrFile where
  file : FileItem
  error : String
deriving DecidableEq, Repr

/-- `ArrayItem` from `src/media.rs`. -/
inductive ArrayItem where
  | frame (f : Frame)
  | errFile (e : ErrFile)
deriving DecidableEq, Repr

/-- The geometry of `resize_with_pad` (`src/media.rs`).  Given original
`(width, height)` and canvas side `imgsz`, compute `ratio`, the resized
dimensions (floor-divided then rounded up to even via `r % 2 + r`), and the
per-side pads `pad_width`/`pad_height` as the source computes them.  Note
`(height as f32 / ratio) as u32 = ⌊height · imgsz / width⌋` exactly. -/
structure ResizeGeom where
  resized_width : ℕ
  resized_height : ℕ
  pad_width : ℕ
  pad_height : ℕ
  ratio : ℚ
deriving DecidableEq, Repr

/-- Internal computation of `resize_with_pad` before its return. -/
def resizeGeom (width height imgsz : ℕ) : ResizeGeom :=
  if height < width then
    let ratio : ℚ := (width : ℚ) / (imgsz : ℚ)
    let rh := height * imgsz / width
    let resized_height := rh % 2 + rh
    { resized_width := imgsz, resized_height,
      pad_width := (imgsz - imgsz) / 2,
      pad_height := (imgsz - resized_height) / 2, ratio }
  else
    let ratio : ℚ := (height : ℚ) / (imgsz : ℚ)
    let rw := width * imgsz / height
    let resized_width := rw % 2 + rw
    { resized_width, resized_height := imgsz,
      pad_width := (imgsz - resized_width) / 2,
      pad_height := (imgsz - imgsz) / 2, ratio }

/-- The value tuple `resize_with_pad` actually returns (`src/media.rs`,
`Ok((padded_array, pad_width as usize, pad_width as usize, ratio))`): the
second padding component returned is `pad_width` again, not `pad_height`.
Result: (first pad, second pad, ratio). -/
def resize_with_pad_result (width height imgsz : ℕ) : ℕ × ℕ × ℚ :=
  let g := resizeGeom width height imgsz
  (g.pad_width, g.pad_width, g.ratio)

/-- The external collaborators of one `media_worker` invocation
(`src/media.rs`), as the spec's §1 black boxes: the outcome of
`decode_image` (image dimensions or an error), the outcome of
`decode_video` (the emitted raw frames — payloads irrelevant, so `Unit` —
plus the parsed stream width/height), and the two metadata readers
(`get_image_date` / `get_video_date`), each already collapsed to the
`Option` the worker stores. -/
structure MediaEnv where
  imageResult : Except String (ℕ × ℕ)
  videoResult : Except String (List Unit × ℕ × ℕ)
  imageDate : Option String
  videoDate : Option String

/-- The single `ArrayItem` that `process_image` (`src/media.rs`) sends for
one file: a `Frame` built from the decoded image and the (buggy)
`resize_with_pad` return, or an `ErrFile` on decode failure. -/
def processImageEmits (env : MediaEnv) (file : FileItem) (imgsz : ℕ) :
    List ArrayItem :=
  match env.imageResult with
  | .ok (w, h) =>
    let r := resize_with_pad_result w h imgsz
    [ .frame { file, width := w, height := h,
               padding := (r.1, r.2.1), ratio := r.2.2,
               iframe_index := 0, total_frames := 1,
               shoot_time := env.imageDate } ]
  | .error e => [ .errFile { file, error := e } ]

/-- The `ArrayItem`s that `handle_ffmpeg_output` (`src/media.rs`) sends for
one video: on decode error a single `ErrFile`; otherwise the decoded frames
are sampled with `sample_evenly (frames) (max_frames.unwrap_or(len))`,
padding is `|w − h| / 2` on the shorter axis, `ratio = max w h / imgsz`,
and one `Frame` is sent per sampled frame with `iframe_index` the sampled
index and `total_frames` the sampled count. -/
def handleFfmpegEmits (env : MediaEnv) (file : FileItem) (imgsz : ℕ)
    (max_frames : Option ℕ) : List ArrayItem :=
  match env.videoResult with
  | .error e => [ .errFile { file, error := e } ]
  | .ok (frames, width, height) =>
    let sampled := sample_evenly frames (max_frames.getD frames.length)
    let pad := if height < width then (width - height) / 2
               else (height - width) / 2
    let padding := if height < width then (0, pad) else (pad, 0)
    let ratio : ℚ := (max width height : ℕ) / (imgsz : ℚ)
    let frames_length := sampled.1.length
    (sampled.1.zip sampled.2).map fun fi =>
      .frame { file, width, height, padding, ratio,
               iframe_index := fi.2, total_frames := frames_length,
               shoot_time := env.videoDate }

/-- `media_worker` from `src/media.rs`, as the list of `ArrayItem`s it
sends: hidden files return before sending anything; otherwise dispatch on
the lower-cased extension to the image or video path; unknown or missing
extensions send nothing. -/
def mediaWorkerEmits (env : MediaEnv) (file : FileItem) (imgsz : ℕ)
    (max_frames : Option ℕ) : List ArrayItem :=
  if is_hidden_file file.file_path then []
  else
    match pathExtension file.file_path with
    | some extension =>
      if toLowerAscii extension ∈ imageExts then
        processImageEmits env file imgsz
      else if toLowerAscii extension ∈ videoExts then
        handleFfmpegEmits env file imgsz max_frames
      else []
    | none => []

/-- `DetectConfig` from `src/detect.rs`. -/
structure DetectConfig where
  device : String
  model_path : String
  target_size : ℕ
  conf_thres : ℚ
  iou_thres : ℚ
  batch_size : ℕ
  timeout : ℕ
  iframe : Bool
deriving DecidableEq, Repr

/-- `ExportFrame` from `src/export.rs`. -/
structure ExportFrame where
  file : FileItem
  shoot_time : Option String
  frame_index : ℕ
  total_frames : ℕ
  is_iframe : Bool
  bboxes : Option (List Bbox)
  label : Option String
  error : Option String
deriving DecidableEq, Repr

/-- The `ExportFrame` that `process_frames` (`src/detect.rs`) sends when it
receives an `ArrayItem::ErrFile`: `shoot_time: None`, `frame_index: 0`,
`total_frames: 1`, `bboxes: Some(vec![])`, `label: None`, `error: Some`. -/
def errExportFrame (iframe : Bool) (err_file : ErrFile) : ExportFrame :=
  { file := err_file.file, shoot_time := none, frame_index := 0,
    total_frames := 1, is_iframe := iframe, bboxes := some [],
    label := none, error := some err_file.error }

/-- One row of the detector output tensor (`src/detect.rs`,
`row = [x1, y1, x2, y2, score, class]`; `class_id = row[5] as usize` is
modelled directly as `ℕ`).  The detector is a black box, so a row is
arbitrary. -/
structure RawDet where
  x1 : ℚ
  y1 : ℚ
  x2 : ℚ
  y2 : ℚ
  score : ℚ
  cls : ℕ
deriving DecidableEq, Repr

/-- The rescale-and-clip of one candidate row in `process_batch`
(`src/detect.rs`): `v · ratio − pad`, then `.max(0.0).min(bound)` with the
frame's width/height as bounds. -/
def rescaleClip (row : RawDet) (ratio pad_x pad_y : ℚ)
    (width height : ℕ) : Bbox :=
  { x1 := min (max (row.x1 * ratio - pad_x) 0) (width : ℚ)
    y1 := min (max (row.y1 * ratio - pad_y) 0) (height : ℚ)
    x2 := min (max (row.x2 * ratio - pad_x) 0) (width : ℚ)
    y2 := min (max (row.y2 * ratio - pad_y) 0) (height : ℚ)
    score := row.score
    cls := row.cls }

/-- The candidate-box list of one batch slot in `process_batch`
(`src/detect.rs`): rows below `conf_thres` are skipped (`if prob <
conf_thres { continue }`), the rest rescaled and clipped. -/
def slotBoxes (config : DetectConfig) (frame : Frame)
    (rows : List RawDet) : List Bbox :=
  (rows.filter fun row => decide (¬ row.score < config.conf_thres)).map
    fun row => rescaleClip row frame.ratio
      (frame.padding.1 : ℚ) (frame.padding.2 : ℚ) frame.width frame.height

/-- `get_label` from `src/detect.rs`: minimum class id over the boxes
(seeded at `bboxes[0].class`), mapped `0 ↦ Animal`, `1 ↦ Person`,
`2 ↦ Vehicle`, `_ ↦ Blank`; empty list gives `Blank`. -/
def get_label (bboxes : List Bbox) : String :=
  match bboxes with
  | [] => "Blank"
  | b :: _ =>
    let class_id := bboxes.foldl (fun acc x => min acc x.cls) b.cls
    match class_id with
    | 0 => "Animal"
    | 1 => "Person"
    | 2 => "Vehicle"
    | _ => "Blank"

/-- The `ExportFrame` `process_batch` (`src/detect.rs`) sends for one batch
slot: NMS is run agnostic with `topk = 100`, `bboxes` is always `Some`,
`label` always `Some`, `error` always `None`. -/
def slotExport (config : DetectConfig) (frame : Frame)
    (rows : List RawDet) : ExportFrame :=
  let nms_boxes := nms (slotBoxes config frame rows) true 100 config.iou_thres
  { file := frame.file, shoot_time := frame.shoot_time,
    frame_index := frame.iframe_index, total_frames := frame.total_frames,
    is_iframe := config.iframe, bboxes := some nms_boxes,
    label := some (get_label nms_boxes), error := none }

/-- `process_batch` (`src/detect.rs`) as the list of records it sends: one
`ExportFrame` per batch slot, in slot order.  `output` gives each slot's
detector rows (the black-box tensor sliced per slot). -/
def processBatchExports (config : DetectConfig) (frames : List Frame)
    (output : List (List RawDet)) : List ExportFrame :=
  (frames.zip output).map fun fo => slotExport config fo.1 fo.2

/-- The file-write primitive of `write_json` / `write_csv`
(`src/export.rs`): `OpenOptions::new().write(true).create(true)` followed by
`write_all` — the existing file is **not** truncated and there is no
temporary file or rename, so the new bytes overwrite the prefix of the old
contents and any old bytes beyond the new length remain.  File contents are
modelled as `List Char`. -/
def fileWrite (prev new : List Char) : List Char :=
  new ++ (prev.drop new.length)

/-- The state one `export_worker` (`src/export.rs`) step acts on: the shared
checkpoint counter, the shared result buffer, and the on-disk bytes of the
output file. -/
structure ExportState where
  counter : ℕ
  buffer : List ExportFrame
  disk : List Char
deriving DecidableEq, Repr

/-- One received record in `export_worker` (`src/export.rs`): increment the
counter; if it is now divisible by `checkpoint`, serialise the *current*
buffer and write it (non-truncating, in place); then append the record to
the buffer.  `serialize` stands for `serde_json::to_string_pretty` /
the CSV formatter, which are external collaborators. -/
def exportStep (checkpoint : ℕ) (serialize : List ExportFrame → List Char)
    (st : ExportState) (export_frame : ExportFrame) : ExportState :=
  let counter := st.counter + 1
  let disk := if counter % checkpoint = 0
              then fileWrite st.disk (serialize st.buffer)
              else st.disk
  { counter, buffer := st.buffer ++ [export_frame], disk }

/-- `export_worker` (`src/export.rs`) over a received record sequence. -/
def exportWorkerRun (checkpoint : ℕ)
    (serialize : List ExportFrame → List Char)
    (st : ExportState) (records : List ExportFrame) : ExportState :=
  records.foldl (exportStep checkpoint serialize) st

/-- `serde_json::to_string_pretty` of an empty record vector is the
two-byte string `[]`; only this value of the external serialiser is needed
concretely.  Non-empty buffers are serialised to some longer placeholder
(never inspected by any theorem). -/
def serializeEmptyPretty (l : List ExportFrame) : List Char :=
  if l.isEmpty then "[]".toList else "[ ... ]".toList

/-- Association-list lookup for the two `HashMap`s of
`resume_from_checkpoint` (`src/main.rs`). -/
def lookupKey (m : List (FileItem × ℕ)) (k : FileItem) : Option ℕ :=
  (m.find? fun e => decide (e.1 = k)).map fun e => e.2

/-- Association-list insert/update (`HashMap::insert` semantics). -/
def setKey (m : List (FileItem × ℕ)) (k : FileItem) (v : ℕ) :
    List (FileItem × ℕ) :=
  (k, v) :: m.filter fun e => decide (¬ e.1 = k)

/-- The state of the `resume_from_checkpoint` loop (`src/main.rs`):
`file_frame_count`, `file_total_frames`, and the surviving work set
(`all_files`, modelled as a list — `HashSet::remove` becomes a filter). -/
structure ResumeState where
  counts : List (FileItem × ℕ)
  totals : List (FileItem × ℕ)
  files : List FileItem
deriving DecidableEq, Repr

/-- One iteration of the `for f in &frames` loop of
`resume_from_checkpoint` (`src/main.rs`): bump the file's record count,
record its first-seen `total_frames` (`entry(..).or_insert`), and when the
two are equal remove the file from the work set. -/
def resumeStep (st : ResumeState) (f : ExportFrame) : ResumeState :=
  let count := (lookupKey st.counts f.file).getD 0 + 1
  let counts := setKey st.counts f.file count
  let totals := if (lookupKey st.totals f.file).isSome then st.totals
                else setKey st.totals f.file f.total_frames
  let files := if lookupKey totals f.file = some count
               then st.files.filter fun x => decide (¬ x = f.file)
               else st.files
  { counts, totals, files }

/-- The work-set reconciliation of `resume_from_checkpoint`
(`src/main.rs`): fold the parsed checkpoint records over the indexed work
set and return the files still to process. -/
def resumeReconcile (frames : List ExportFrame) (all_files : List FileItem) :
    List FileItem :=
  (frames.foldl resumeStep ⟨[], [], all_files⟩).files

/-! ## Lemmas about the NMS core -/

/-- The greedy loop only returns boxes from its input. -/
theorem nmsLoop_subset (boxes : List Bbox) (topk : ℕ) (thr : ℚ) :
    nmsLoop boxes topk thr ⊆ boxes := by
  induction boxes, topk, thr using nmsLoop.induct with
  | case1 topk thr =>
    simp [nmsLoop]
  | case2 topk thr best rest h =>
    simp [nmsLoop, h]
  | case3 topk thr best rest h ih =>
    rw [nmsLoop, if_neg h]
    intro a ha
    rcases List.mem_cons.mp ha with rfl | ha
    · exact List.mem_cons_self _ _
    · exact List.mem_cons_of_mem _ ((List.filter_sublist rest).subset (ih ha))

/-- Every pair the greedy loop keeps has IoU strictly below the
threshold (in selection order). -/
theorem nmsLoop_pairwise_iou (boxes : List Bbox) (topk : ℕ) (thr : ℚ) :
    (nmsLoop boxes topk thr).Pairwise fun a b => iou a b < thr := by
  induction boxes, topk, thr using nmsLoop.induct with
  | case1 topk thr =>
    simp [nmsLoop]
  | case2 topk thr best rest h =>
    simp [nmsLoop, h]
  | case3 topk thr best rest h ih =>
    rw [nmsLoop, if_neg h]
    refine List.Pairwise.cons (fun b hb => ?_) ih
    have hmem := nmsLoop_subset _ _ _ hb
    exact of_decide_eq_true (List.mem_filter.mp hmem).2

/-- The greedy loop preserves descending score order. -/
theorem nmsLoop_sorted (boxes : List Bbox) (topk : ℕ) (thr : ℚ)
    (h : boxes.Pairwise fun a b => b.score ≤ a.score) :
    (nmsLoop boxes topk thr).Pairwise fun a b => b.score ≤ a.score := by
  induction boxes, topk, thr using nmsLoop.induct with
  | case1 topk thr =>
    simp [nmsLoop]
  | case2 topk thr best rest hle =>
    simp [nmsLoop, hle]
  | case3 topk thr best rest hle ih =>
    rw [nmsLoop, if_neg hle]
    rcases List.pairwise_cons.mp h with ⟨hbest, hrest⟩
    refine List.Pairwise.cons (fun b hb => ?_)
      (ih (hrest.sublist (List.filter_sublist rest)))
    have hmem := nmsLoop_subset _ _ _ hb
    exact hbest b ((List.filter_sublist rest).subset hmem)

/-- Output of the sorting step is score-descending. -/
theorem sortByScoreDesc_sorted (boxes : List Bbox) :
    (sortByScoreDesc boxes).Pairwise fun a b => b.score ≤ a.score := by
  have h := @List.sorted_mergeSort Bbox scoreDesc
    (fun a b c hab hbc => by
      simp only [scoreDesc, decide_eq_true_eq] at *
      exact hbc.trans hab)
    (fun a b => by
      simp only [scoreDesc, Bool.or_eq_true, decide_eq_true_eq]
      exact le_total b.score a.score)
    boxes
  exact h.imp fun hab => of_decide_eq_true hab

/-- Sorting does not change membership. -/
theorem mem_sortByScoreDesc {a : Bbox} {boxes : List Bbox} :
    a ∈ sortByScoreDesc boxes ↔ a ∈ boxes :=
  (List.mergeSort_perm boxes scoreDesc).mem_iff

/-- The class list built by the class-specific partition has no
duplicates. -/
theorem classesIn_nodup (boxes : List Bbox) : (classesIn boxes).Nodup := by
  suffices h : ∀ (l : List Bbox) (acc : List ℕ), acc.Nodup →
      (l.foldl (fun acc b => if b.cls ∈ acc then acc else acc ++ [b.cls])
        acc).Nodup by
    exact h boxes [] List.nodup_nil
  intro l
  induction l with
  | nil => intro acc hacc; simpa using hacc
  | cons b rest ih =>
    intro acc hacc
    simp only [List.foldl_cons]
    by_cases hb : b.cls ∈ acc
    · simpa [hb] using ih acc hacc
    · have : (acc ++ [b.cls]).Nodup := by
        simp [List.nodup_append, hacc, hb]
      simpa [hb] using ih (acc ++ [b.cls]) this

/-- A box returned by a class-`c` block of class-specific NMS has class
`c`. -/
theorem mem_classBlock {sorted : List Bbox} {c topk : ℕ} {thr : ℚ}
    {b : Bbox}
    (hb : b ∈ nmsLoop (sorted.filter fun x => decide (x.cls = c)) topk thr) :
    b.cls = c :=
  of_decide_eq_true (List.mem_filter.mp (nmsLoop_subset _ _ _ hb)).2

/-- Unfolding of class-specific `nms` to a flattened list of per-class
blocks. -/
theorem nms_false_eq (boxes : List Bbox) (topk : ℕ) (thr : ℚ) :
    nms boxes false topk thr =
      ((classesIn (sortByScoreDesc boxes)).map fun c =>
        nmsLoop ((sortByScoreDesc boxes).filter fun b => decide (b.cls = c))
          topk thr).flatten := rfl

/-- C3: after `nms`, every pair of distinct surviving boxes has IoU
strictly below `iou_thres` in agnostic mode, and every pair of distinct
same-class survivors has IoU strictly below `iou_thres` in class-specific
mode.  (Pairs are taken in output order; `iou` is symmetric in its
arguments, so this covers unordered pairs.) -/
theorem C3_nms_iou_below_threshold (boxes : List Bbox) (topk : ℕ)
    (thr : ℚ) :
    ((nms boxes true topk thr).Pairwise fun a b => iou a b < thr) ∧
    ((nms boxes false topk thr).Pairwise fun a b =>
      a.cls = b.cls → iou a b < thr) := by
  constructor
  · simpa [nms] using nmsLoop_pairwise_iou (sortByScoreDesc boxes) topk thr
  · rw [nms_false_eq, List.pairwise_flatten]
    constructor
    · intro l hl
      rcases List.mem_map.mp hl with ⟨c, _, rfl⟩
      refine (nmsLoop_pairwise_iou _ _ _).imp ?_
      intro a b h _
      exact h
    · refine List.pairwise_map.mpr ((classesIn_nodup _).imp ?_)
      intro c₁ c₂ hne x hx y hy hcls
      exact absurd ((mem_classBlock hx).symm.trans
        (hcls.trans (mem_classBlock hy))) hne

/-- `nms` only returns boxes from its input, in both modes. -/
theorem nms_subset (boxes : List Bbox) (agnostic : Bool) (topk : ℕ)
    (thr : ℚ) : ∀ b ∈ nms boxes agnostic topk thr, b ∈ boxes := by
  intro b hb
  cases agnostic with
  | true =>
    have : b ∈ sortByScoreDesc boxes := by
      simpa [nms] using nmsLoop_subset _ _ _ (by simpa [nms] using hb)
    exact mem_sortByScoreDesc.mp this
  | false =>
    rw [nms_false_eq] at hb
    rcases List.mem_flatten.mp hb with ⟨l, hl, hbl⟩
    rcases List.mem_map.mp hl with ⟨c, _, rfl⟩
    have := (List.filter_sublist _).subset (nmsLoop_subset _ _ _ hbl)
    exact mem_sortByScoreDesc.mp this

/-- C9 (amended): `nms` returns a subset of its input in both modes; the
output is in descending score order in agnostic mode, and descending
within each class in class-specific mode (the concatenation across classes
follows the hash-map iteration order and need not be globally
descending). -/
theorem C9_nms_subset_and_order (boxes : List Bbox) (topk : ℕ) (thr : ℚ) :
    (∀ agnostic, ∀ b ∈ nms boxes agnostic topk thr, b ∈ boxes) ∧
    ((nms boxes true topk thr).Pairwise fun a b => b.score ≤ a.score) ∧
    ((nms boxes false topk thr).Pairwise fun a b =>
      a.cls = b.cls → b.score ≤ a.score) := by
  refine ⟨fun agnostic => nms_subset boxes agnostic topk thr, ?_, ?_⟩
  · simpa [nms] using
      nmsLoop_sorted (sortByScoreDesc boxes) topk thr
        (sortByScoreDesc_sorted boxes)
  · rw [nms_false_eq, List.pairwise_flatten]
    constructor
    · intro l hl
      rcases List.mem_map.mp hl with ⟨c, _, rfl⟩
      have hsorted : ((sortByScoreDesc boxes).filter
          fun b => decide (b.cls = c)).Pairwise
            (fun a b => b.score ≤ a.score) :=
        (sortByScoreDesc_sorted boxes).sublist (List.filter_sublist _)
      refine (nmsLoop_sorted _ topk thr hsorted).imp ?_
      intro a b h _
      exact h
    · refine List.pairwise_map.mpr ((classesIn_nodup _).imp ?_)
      intro c₁ c₂ hne x hx y hy hcls
      exact absurd ((mem_classBlock hx).symm.trans
        (hcls.trans (mem_classBlock hy))) hne

/-- Concrete class-0 box of score 9/10, used only by the C9
counterexample (three mutually disjoint unit boxes). -/
def c9Box1 : Bbox := { x1 := 0, y1 := 0, x2 := 1, y2 := 1,
                       score := 9/10, cls := 0 }

/-- Concrete class-0 box of score 1/10, disjoint from the others. -/
def c9Box2 : Bbox := { x1 := 10, y1 := 10, x2 := 11, y2 := 11,
                       score := 1/10, cls := 0 }

/-- Concrete class-1 box of score 1/2, disjoint from the others. -/
def c9Box3 : Bbox := { x1 := 20, y1 := 20, x2 := 21, y2 := 21,
                       score := 1/2, cls := 1 }

/-- C9 counterexample: in class-specific mode `nms` emits the class-0
block before the class-1 block, so with disjoint boxes of scores
9/10 and 1/10 (class 0) and 1/2 (class 1) the output scores are
9/10, 1/10, 1/2 — not in descending order, refuting the claim that the
result preserves descending score order in both modes. -/
theorem C9_counterexample_not_descending :
    nms [c9Box1, c9Box2, c9Box3] false 100 (1/2) =
      [c9Box1, c9Box2, c9Box3] ∧
    ¬ ((nms [c9Box1, c9Box2, c9Box3] false 100 (1/2)).Pairwise
        fun a b => b.score ≤ a.score) := by
  norm_num [nms, sortByScoreDesc, List.mergeSort, scoreDesc, classesIn,
    nmsLoop, iou, Bbox.area, c9Box1, c9Box2, c9Box3, List.Pairwise]

/-- C2 counterexample: a 2-frame video with `max_frames = 4` — the code
passes `max_frames` itself (not `min(max_frames, N)`) as the sample size,
so `sample_evenly` returns the four indices `0, 0, 1, 1`: not pairwise
distinct, not strictly ascending, and not of length `min(max_frames, N)`
as the claim requires. -/
theorem C2_counterexample_duplicate_indices :
    (sample_evenly ([0, 0] : List ℕ) 4).2 = [0, 0, 1, 1] ∧
    ¬ (sample_evenly ([0, 0] : List ℕ) 4).2.Nodup ∧
    (sample_evenly ([0, 0] : List ℕ) 4).2.length ≠ min 4 2 := by
  decide

/-- C2 (amended): for a non-empty frame list and non-zero sample size `K`
(the code passes `max_frames` itself when configured, `N` otherwise), the
sampled indices are exactly `⌊i·N/K⌋` for `i ∈ [0,K)`; when `K ≤ N` they
are strictly ascending (hence pairwise distinct). -/
theorem C2_sample_evenly_indices {α : Type} [Inhabited α] (list : List α)
    (K : ℕ) (hK : K ≠ 0) (hl : list ≠ []) :
    (sample_evenly list K).2 =
      (List.range K).map (fun i => i * list.length / K) ∧
    (K ≤ list.length → (sample_evenly list K).2.Pairwise (· < ·)) := by
  have hlen : list.length ≠ 0 :=
    Nat.pos_iff_ne_zero.mp (List.length_pos.mpr hl)
  have heq : (sample_evenly list K).2 =
      (List.range K).map (fun i => i * list.length / K) := by
    simp [sample_evenly, hK, hlen]
  refine ⟨heq, fun hKN => ?_⟩
  rw [heq]
  refine List.pairwise_map.mpr ((List.pairwise_lt_range K).imp ?_)
  intro i j hij
  have h1 : i * list.length + K ≤ j * list.length := by
    have h2 : (i + 1) * list.length ≤ j * list.length :=
      Nat.mul_le_mul_right _ hij
    have h3 : i * list.length + K ≤ (i + 1) * list.length := by
      have : i * list.length + list.length = (i + 1) * list.length := by
        ring
      omega
    omega
  have h4 : (i * list.length + K) / K ≤ j * list.length / K :=
    Nat.div_le_div_right h1
  rw [Nat.add_div_right _ (Nat.pos_of_ne_zero hK)] at h4
  omega

/-- Witness for the amended C2 theorem: a 7-frame list sampled down to 3
yields indices `0, 2, 4`, strictly ascending. -/
theorem C2_sample_evenly_indices_witness :
    (3 : ℕ) ≠ 0 ∧ ([0, 0, 0, 0, 0, 0, 0] : List ℕ) ≠ [] ∧
    ((sample_evenly ([0, 0, 0, 0, 0, 0, 0] : List ℕ) 3).2 =
        (List.range 3).map (fun i => i * 7 / 3) ∧
      (3 ≤ 7 →
        (sample_evenly ([0, 0, 0, 0, 0, 0, 0] : List ℕ) 3).2.Pairwise
          (· < ·))) :=
  ⟨by decide, by decide,
    C2_sample_evenly_indices ([0, 0, 0, 0, 0, 0, 0] : List ℕ) 3
      (by decide) (by decide)⟩

/-- The running minimum of `get_label` is a lower bound of the seed and of
every class in the list, and is attained (it equals the seed or some
element's class). -/
theorem foldl_min_cls (l : List Bbox) (a : ℕ) :
    l.foldl (fun acc x => min acc x.cls) a ≤ a ∧
    (∀ x ∈ l, l.foldl (fun acc x => min acc x.cls) a ≤ x.cls) ∧
    (l.foldl (fun acc x => min acc x.cls) a = a ∨
      ∃ x ∈ l, l.foldl (fun acc x => min acc x.cls) a = x.cls) := by
  induction l generalizing a with
  | nil => simp
  | cons b rest ih =>
    obtain ⟨ih1, ih2, ih3⟩ := ih (min a b.cls)
    simp only [List.foldl_cons]
    refine ⟨ih1.trans (min_le_left _ _), ?_, ?_⟩
    · intro x hx
      rcases List.mem_cons.mp hx with rfl | hx
      · exact ih1.trans (min_le_right _ _)
      · exact ih2 x hx
    · rcases ih3 with h | ⟨x, hx, h⟩
      · rcases Nat.le_total a b.cls with hab | hab
        · exact Or.inl (h.trans (Nat.min_eq_left hab))
        · exact Or.inr ⟨b, List.mem_cons_self _ _,
            h.trans (Nat.min_eq_right hab)⟩
      · exact Or.inr ⟨x, List.mem_cons_of_mem _ hx, h⟩

/-- C8: the frame label equals the class-priority chain — `Animal` iff
some surviving box has class 0, else `Person` iff some has class 1, else
`Vehicle` iff some has class 2, else `Blank`; the empty list yields
`Blank`. -/
theorem C8_get_label_priority (bboxes : List Bbox) :
    get_label bboxes =
      if ∃ b ∈ bboxes, b.cls = 0 then "Animal"
      else if ∃ b ∈ bboxes, b.cls = 1 then "Person"
      else if ∃ b ∈ bboxes, b.cls = 2 then "Vehicle"
      else "Blank" := by
  match bboxes with
  | [] => simp [get_label]
  | b :: rest =>
    obtain ⟨h1, h2, h3⟩ := foldl_min_cls (b :: rest) b.cls
    have hattain : ∃ x ∈ b :: rest,
        x.cls = (b :: rest).foldl (fun acc x => min acc x.cls) b.cls := by
      rcases h3 with h | ⟨x, hx, h⟩
      · exact ⟨b, List.mem_cons_self _ _, h.symm⟩
      · exact ⟨x, hx, h.symm⟩
    obtain ⟨x0, hx0, hx0m⟩ := hattain
    have hgl : get_label (b :: rest) =
        match (b :: rest).foldl (fun acc x => min acc x.cls) b.cls with
        | 0 => "Animal"
        | 1 => "Person"
        | 2 => "Vehicle"
        | _ => "Blank" := rfl
    rw [hgl]
    rcases hm : (b :: rest).foldl (fun acc x => min acc x.cls) b.cls with
      _ | _ | _ | m
    · rw [hm, if_pos ⟨x0, hx0, by omega⟩]
    · have hno0 : ¬ ∃ y ∈ b :: rest, y.cls = 0 := by
        rintro ⟨y, hy, hy0⟩
        have := h2 y hy
        omega
      rw [hm, if_neg hno0, if_pos ⟨x0, hx0, by omega⟩]
    · have hno0 : ¬ ∃ y ∈ b :: rest, y.cls = 0 := by
        rintro ⟨y, hy, hy0⟩
        have := h2 y hy
        omega
      have hno1 : ¬ ∃ y ∈ b :: rest, y.cls = 1 := by
        rintro ⟨y, hy, hy1⟩
        have := h2 y hy
        omega
      rw [hm, if_neg hno0, if_neg hno1, if_pos ⟨x0, hx0, by omega⟩]
    · have hno0 : ¬ ∃ y ∈ b :: rest, y.cls = 0 := by
        rintro ⟨y, hy, hy0⟩
        have := h2 y hy
        omega
      have hno1 : ¬ ∃ y ∈ b :: rest, y.cls = 1 := by
        rintro ⟨y, hy, hy1⟩
        have := h2 y hy
        omega
      have hno2 : ¬ ∃ y ∈ b :: rest, y.cls = 2 := by
        rintro ⟨y, hy, hy2⟩
        have := h2 y hy
        omega
      rw [hm, if_neg hno0, if_neg hno1, if_neg hno2]
      rfl

/-- C5 (amended): a detection record from `process_batch` always has
`bboxes` set and `error` absent; an error record from `process_frames` has
`error` set but ALSO `bboxes = Some(vec![])` — so `bboxes.isSome` holds on
both paths and the claimed exclusive-or fails on the error path. -/
theorem C5_record_option_shape (config : DetectConfig) (frame : Frame)
    (rows : List RawDet) (iframe : Bool) (err_file : ErrFile) :
    (slotExport config frame rows).bboxes.isSome = true ∧
    (slotExport config frame rows).error = none ∧
    (errExportFrame iframe err_file).error.isSome = true ∧
    (errExportFrame iframe err_file).bboxes = some [] :=
  ⟨rfl, rfl, rfl, rfl⟩

/-- Concrete failed file used only by the C5 counterexample. -/
def c5ErrFile : ErrFile :=
  { file := { folder_id := 1, file_id := 1, file_path := "/data/broken.jpg" },
    error := "Failed to decode" }

/-- C5 counterexample: on the failed-file path the emitted record has
`bboxes = Some(vec![])` and `error = Some(..)` simultaneously, refuting
`bboxes.is_some() XOR error.is_some()`. -/
theorem C5_counterexample_error_record_has_bboxes :
    (errExportFrame true c5ErrFile).bboxes = some [] ∧
    (errExportFrame true c5ErrFile).error = some "Failed to decode" ∧
    ¬ (Xor' ((errExportFrame true c5ErrFile).bboxes.isSome = true)
        ((errExportFrame true c5ErrFile).error.isSome = true)) := by
  refine ⟨rfl, rfl, ?_⟩
  rw [Xor']
  simp [errExportFrame]

/-- C7: the letterbox geometry computes `pad_height = (S − resized_height)/2`
and uses it to centre the image on the canvas, but `resize_with_pad` returns
`pad_width` in BOTH padding slots of its result tuple.  For a 1280×720
image at `S = 640` the true per-side vertical pad is 140 pixels, yet the
function returns `(0, 0, ratio 2)`, so the caller's `padding = (0, 0)`
cannot invert the vertical centring. -/
theorem C7_resize_with_pad_drops_pad_height :
    (∀ w h s, (resize_with_pad_result w h s).2.1 =
      (resizeGeom w h s).pad_width) ∧
    resize_with_pad_result 1280 720 640 = (0, 0, 2) ∧
    (resizeGeom 1280 720 640).pad_height = 140 := by
  refine ⟨fun w h s => rfl, ?_, ?_⟩
  · norm_num [resize_with_pad_result, resizeGeom]
  · norm_num [resizeGeom]

/-- C4 (amended): every box in a detection record has each coordinate
individually clipped into range — `0 ≤ x1 ≤ W`, `0 ≤ x2 ≤ W`,
`0 ≤ y1 ≤ H`, `0 ≤ y2 ≤ H` — and additionally `x1 ≤ x2` and `y1 ≤ y2`
whenever the frame ratio is nonnegative and the raw detector rows are
themselves ordered (`x1 ≤ x2`, `y1 ≤ y2`); the orderedness is NOT enforced
for arbitrary tensors (see the counterexample). -/
theorem C4_coordinates_clipped (config : DetectConfig) (frame : Frame)
    (rows : List RawDet) :
    ∀ b ∈ (slotExport config frame rows).bboxes.getD [],
      (0 ≤ b.x1 ∧ b.x1 ≤ (frame.width : ℚ) ∧
        0 ≤ b.x2 ∧ b.x2 ≤ (frame.width : ℚ) ∧
        0 ≤ b.y1 ∧ b.y1 ≤ (frame.height : ℚ) ∧
        0 ≤ b.y2 ∧ b.y2 ≤ (frame.height : ℚ)) ∧
      (0 ≤ frame.ratio → (∀ r ∈ rows, r.x1 ≤ r.x2 ∧ r.y1 ≤ r.y2) →
        b.x1 ≤ b.x2 ∧ b.y1 ≤ b.y2) := by
  intro b hb
  have hb1 : b ∈ nms (slotBoxes config frame rows) true 100
      config.iou_thres := hb
  have hb2 : b ∈ slotBoxes config frame rows :=
    nms_subset _ _ _ _ b hb1
  rcases List.mem_map.mp hb2 with ⟨r, hrf, rfl⟩
  have hr : r ∈ rows := (List.filter_sublist rows).subset hrf
  constructor
  · refine ⟨le_min (le_max_right _ _) (Nat.cast_nonneg _), min_le_right _ _,
      le_min (le_max_right _ _) (Nat.cast_nonneg _), min_le_right _ _,
      le_min (le_max_right _ _) (Nat.cast_nonneg _), min_le_right _ _,
      le_min (le_max_right _ _) (Nat.cast_nonneg _), min_le_right _ _⟩
  · intro hratio hordered
    obtain ⟨hx, hy⟩ := hordered r hr
    constructor
    · exact min_le_min (max_le_max (by
        have := mul_le_mul_of_nonneg_right hx hratio
        linarith) le_rfl) le_rfl
    · exact min_le_min (max_le_max (by
        have := mul_le_mul_of_nonneg_right hy hratio
        linarith) le_rfl) le_rfl


/-- Concrete detector config used only by the C4 witness and
counterexample. -/
def c4Config : DetectConfig :=
  { device := "cpu", model_path := "models/md_v5a_fp16.onnx",
    target_size := 640, conf_thres := 1/5, iou_thres := 9/20,
    batch_size := 2, timeout := 50, iframe := true }

/-- Concrete 100×100 frame with identity rescale, used only by the C4
witness and counterexample. -/
def c4Frame : Frame :=
  { file := { folder_id := 0, file_id := 0, file_path := "/data/a.jpg" },
    width := 100, height := 100, padding := (0, 0), ratio := 1,
    iframe_index := 0, total_frames := 1, shoot_time := none }

/-- A well-ordered raw detector row. -/
def c4Row : RawDet :=
  { x1 := 5, y1 := 6, x2 := 20, y2 := 30, score := 1, cls := 0 }

/-- The box `process_batch` emits for `c4Row` on `c4Frame`. -/
def c4Box : Bbox :=
  { x1 := 5, y1 := 6, x2 := 20, y2 := 30, score := 1, cls := 0 }

/-- Witness for amended C4 at a concrete slot: the emitted box is in range
and ordered. -/
theorem C4_coordinates_clipped_witness :
    c4Box ∈ (slotExport c4Config c4Frame [c4Row]).bboxes.getD [] ∧
    (0 ≤ c4Box.x1 ∧ c4Box.x1 ≤ (c4Frame.width : ℚ) ∧
      0 ≤ c4Box.x2 ∧ c4Box.x2 ≤ (c4Frame.width : ℚ) ∧
      0 ≤ c4Box.y1 ∧ c4Box.y1 ≤ (c4Frame.height : ℚ) ∧
      0 ≤ c4Box.y2 ∧ c4Box.y2 ≤ (c4Frame.height : ℚ)) ∧
    (c4Box.x1 ≤ c4Box.x2 ∧ c4Box.y1 ≤ c4Box.y2) := by
  have hmem : c4Box ∈ (slotExport c4Config c4Frame [c4Row]).bboxes.getD [] := by
    norm_num [slotExport, slotBoxes, nms, sortByScoreDesc, List.mergeSort,
      scoreDesc, nmsLoop, classesIn, rescaleClip, c4Config, c4Frame, c4Row,
      c4Box]
  have h := C4_coordinates_clipped c4Config c4Frame [c4Row] c4Box hmem
  refine ⟨hmem, h.1, h.2 ?_ ?_⟩
  · norm_num [c4Frame]
  · intro r hr
    rcases List.mem_singleton.mp hr with rfl
    norm_num [c4Row]

/-- A raw detector row with `x1 > x2`, as an arbitrary tensor may
contain. -/
def c4BadRow : RawDet :=
  { x1 := 10, y1 := 0, x2 := 0, y2 := 5, score := 1, cls := 0 }

/-- The box `process_batch` emits for `c4BadRow` on `c4Frame`. -/
def c4BadBox : Bbox :=
  { x1 := 10, y1 := 0, x2 := 0, y2 := 5, score := 1, cls := 0 }

/-- C4 counterexample: the per-coordinate clamp does not restore ordering —
for a raw row with `x1 = 10 > x2 = 0` the emitted detection box still has
`x1 = 10 > x2 = 0`, refuting the unconditional `x1 ≤ x2` of the claim. -/
theorem C4_counterexample_x1_above_x2 :
    c4BadBox ∈ (slotExport c4Config c4Frame [c4BadRow]).bboxes.getD [] ∧
    ¬ (c4BadBox.x1 ≤ c4BadBox.x2) := by
  constructor
  · norm_num [slotExport, slotBoxes, nms, sortByScoreDesc, List.mergeSort,
      scoreDesc, nmsLoop, classesIn, rescaleClip, c4Config, c4Frame,
      c4BadRow, c4BadBox]
  · norm_num [c4BadBox]

/-- C6 (amended): each received record bumps the checkpoint counter, and
exactly when the counter becomes divisible by `checkpoint_interval` the
whole current buffer is serialised and written to the output file — but the
write is in place over the previous contents with no truncation and no
temporary-file-plus-rename, so the on-disk bytes equal the serialised
buffer only when the previous contents are no longer than it. -/
theorem C6_checkpoint_write_semantics (checkpoint : ℕ)
    (serialize : List ExportFrame → List Char) (st : ExportState)
    (export_frame : ExportFrame) :
    (exportStep checkpoint serialize st export_frame).counter =
      st.counter + 1 ∧
    (exportStep checkpoint serialize st export_frame).buffer =
      st.buffer ++ [export_frame] ∧
    (exportStep checkpoint serialize st export_frame).disk =
      (if (st.counter + 1) % checkpoint = 0
        then fileWrite st.disk (serialize st.buffer) else st.disk) ∧
    ((st.counter + 1) % checkpoint = 0 →
      st.disk.length ≤ (serialize st.buffer).length →
      (exportStep checkpoint serialize st export_frame).disk =
        serialize st.buffer) := by
  refine ⟨rfl, rfl, rfl, fun hdiv hlen => ?_⟩
  simp [exportStep, hdiv, fileWrite, List.drop_eq_nil_of_le hlen]

/-- Concrete record used only by the C6 witness and counterexample. -/
def c6Record : ExportFrame :=
  { file := { folder_id := 0, file_id := 0, file_path := "/data/a.jpg" },
    shoot_time := none, frame_index := 0, total_frames := 1,
    is_iframe := true, bboxes := some [], label := some "Blank",
    error := none }

/-- Witness for amended C6: with `checkpoint = 1`, an empty previous file
and an empty buffer, receiving one record triggers a write and the disk
equals the serialised (empty) buffer. -/
theorem C6_checkpoint_write_semantics_witness :
    ((0 + 1) % 1 = 0) ∧
    (([] : List Char).length ≤ (serializeEmptyPretty []).length) ∧
    (exportStep 1 serializeEmptyPretty
      { counter := 0, buffer := [], disk := [] } c6Record).disk =
      serializeEmptyPretty [] :=
  ⟨by decide, by decide,
    (C6_checkpoint_write_semantics 1 serializeEmptyPretty
      { counter := 0, buffer := [], disk := [] } c6Record).2.2.2
      (by decide) (by decide)⟩

/-- C6 counterexample: with previous on-disk contents longer than the new
serialisation (`0123456789`, 10 bytes, vs `[]`, 2 bytes), the checkpoint
write leaves `[]23456789` on disk — stale trailing bytes, not the
serialised buffer, refuting the write-temporary-and-rename atomicity
claim. -/
theorem C6_counterexample_stale_tail :
    (exportWorkerRun 1 serializeEmptyPretty
      { counter := 0, buffer := [], disk := "0123456789".toList }
      [c6Record]).disk = "[]23456789".toList ∧
    (exportWorkerRun 1 serializeEmptyPretty
      { counter := 0, buffer := [], disk := "0123456789".toList }
      [c6Record]).disk ≠ serializeEmptyPretty [] := by
  constructor
  · decide
  · decide

/-- Lengths of the even-sampling output on non-degenerate input. -/
theorem sample_evenly_lengths {α : Type} [Inhabited α] (list : List α)
    (K : ℕ) (hK : K ≠ 0) (hl : list.length ≠ 0) :
    (sample_evenly list K).1.length = K ∧
    (sample_evenly list K).2.length = K := by
  simp [sample_evenly, hK, hl]

/-- C1 (amended): every accepted, non-hidden file makes `media_worker`
emit at least one item (hence at least one downstream record): exactly one
for images (decoded frame or error marker) and failed videos, and one per
sampled frame for decoded videos — provided the decoded frame list is
non-empty and `max_frames` is not zero.  (Hidden files, by contrast, emit
nothing — see the counterexample.) -/
theorem C1_accepted_nonhidden_emits (env : MediaEnv) (file : FileItem)
    (imgsz : ℕ) (max_frames : Option ℕ)
    (hhid : is_hidden_file file.file_path = false)
    (hacc : is_video_photo file.file_path = true)
    (hvid : ∀ fs w h, env.videoResult = .ok (fs, w, h) →
      fs ≠ [] ∧ max_frames ≠ some 0) :
    1 ≤ (mediaWorkerEmits env file imgsz max_frames).length := by
  rcases hext : pathExtension file.file_path with _ | e
  · simp only [is_video_photo, hext] at hacc
    exact absurd hacc (by simp)
  · simp only [is_video_photo, hext, Bool.or_eq_true, decide_eq_true_eq]
      at hacc
    simp only [mediaWorkerEmits, hhid, Bool.false_eq_true, if_false, hext]
    by_cases himg : toLowerAscii e ∈ imageExts
    · rcases hi : env.imageResult with msg | wh
      · simp [himg, processImageEmits, hi]
      · simp [himg, processImageEmits, hi]
    · have hvext : toLowerAscii e ∈ videoExts := hacc.resolve_right himg
      rcases hv : env.videoResult with msg | ⟨fs, w, h⟩
      · simp [himg, hvext, handleFfmpegEmits, hv]
      · obtain ⟨hfs, hmf⟩ := hvid fs w h hv
        have hlen : fs.length ≠ 0 := by
          simpa using fun hnil => hfs (List.length_eq_zero.mp hnil)
        have hK : max_frames.getD fs.length ≠ 0 := by
          cases max_frames with
          | none => simpa using hlen
          | some k =>
            intro hk0
            exact hmf (by simpa using congrArg some hk0)
        obtain ⟨l1, l2⟩ := sample_evenly_lengths fs _ hK hlen
        simp only [himg, hvext, handleFfmpegEmits, hv, if_false,
          if_true, List.length_map, List.length_zip, l1, l2, min_self]
        omega

/-- Concrete visible image file used only by the C1 witness. -/
def c1File : FileItem :=
  { folder_id := 1, file_id := 0, file_path := "/data/cat.jpg" }

/-- Concrete media environment used only by the C1 witness and
counterexample: the image decoder succeeds with a 640×480 image. -/
def c1Env : MediaEnv :=
  { imageResult := .ok (640, 480), videoResult := .error "unused",
    imageDate := none, videoDate := none }

/-- Witness for amended C1: the visible `cat.jpg` is accepted, not hidden,
and yields at least one emitted item. -/
theorem C1_accepted_nonhidden_emits_witness :
    is_hidden_file c1File.file_path = false ∧
    is_video_photo c1File.file_path = true ∧
    1 ≤ (mediaWorkerEmits c1Env c1File 640 (some 3)).length :=
  ⟨by decide, by decide,
    C1_accepted_nonhidden_emits c1Env c1File 640 (some 3) (by decide)
      (by decide) (fun fs w h hcontr => nomatch hcontr)⟩

/-- Concrete hidden-but-accepted file used only by the C1 counterexample:
`.hidden.jpg` has extension `jpg` (Rust `Path::extension` looks past the
leading dot when another dot is present), so the indexer accepts it. -/
def c1HiddenFile : FileItem :=
  { folder_id := 1, file_id := 1, file_path := "/data/.hidden.jpg" }

/-- C1 counterexample: an accepted input file whose name starts with a dot
produces NO emitted item at all — `media_worker` returns before sending
anything for hidden files — refuting the claim that every accepted file,
including dot-files, yields at least one record. -/
theorem C1_counterexample_hidden_file_emits_nothing :
    is_video_photo c1HiddenFile.file_path = true ∧
    mediaWorkerEmits c1Env c1HiddenFile 640 (some 3) = [] :=
  ⟨by decide, by decide⟩

/-- `find?` commutes with a `filter` whose predicate is implied by the
search predicate. -/
theorem find_of_filter_imp {α : Type} (p q : α → Bool) (l : List α)
    (h : ∀ e, p e = true → q e = true) :
    (l.filter q).find? p = l.find? p := by
  induction l with
  | nil => rfl
  | cons e rest ih =>
    by_cases hq : q e = true
    · rw [List.filter_cons_of_pos hq]
      by_cases hp : p e = true
      · rw [List.find?_cons_of_pos _ hp, List.find?_cons_of_pos _ hp]
      · rw [List.find?_cons_of_neg _ (by simpa using hp),
          List.find?_cons_of_neg _ (by simpa using hp)]
        exact ih
    · have hp : p e = false := by
        cases hpe : p e with
        | false => rfl
        | true => exact absurd (h e hpe) hq
      rw [List.filter_cons_of_neg (by simpa using hq),
        List.find?_cons_of_neg _ (by simp [hp])]
      exact ih

/-- Updating one key of the association map leaves other keys' lookups
unchanged. -/
theorem lookupKey_setKey_ne (m : List (FileItem × ℕ)) (k g : FileItem)
    (v : ℕ) (h : g ≠ k) :
    lookupKey (setKey m k v) g = lookupKey m g := by
  unfold lookupKey setKey
  rw [List.find?_cons_of_neg _ (by simpa using fun hkg => h hkg.symm)]
  rw [find_of_filter_imp]
  intro e he
  have : e.1 = g := by simpa using he
  simp [this, h]

/-- Updating a key makes its lookup return the new value. -/
theorem lookupKey_setKey_eq (m : List (FileItem × ℕ)) (k : FileItem)
    (v : ℕ) : lookupKey (setKey m k v) k = some v := by
  unfold lookupKey setKey
  rw [List.find?_cons_of_pos _ (by simp)]
  rfl

/-- A reconcile step on the first record of a file whose advertised
`total_frames` is 1 removes the file from the work set. -/
theorem resumeStep_removes (st : ResumeState) (f : ExportFrame)
    (g : FileItem) (hf : f.file = g) (hcnt : lookupKey st.counts g = none)
    (htot : lookupKey st.totals g = none) (h1 : f.total_frames = 1) :
    g ∉ (resumeStep st f).files := by
  simp only [resumeStep, hf, hcnt, htot, Option.getD_none, Option.isSome_none,
    Bool.false_eq_true, if_false, lookupKey_setKey_eq, h1, Nat.zero_add,
    List.mem_filter]
  simp

/-- One reconcile step on a record of a different file does not change the
lookups for `g`. -/
theorem resumeStep_other_file (st : ResumeState) (f : ExportFrame)
    (g : FileItem) (h : f.file ≠ g) :
    lookupKey (resumeStep st f).counts g = lookupKey st.counts g ∧
    lookupKey (resumeStep st f).totals g = lookupKey st.totals g := by
  have hne : g ≠ f.file := fun hgf => h hgf.symm
  constructor
  · exact lookupKey_setKey_ne _ _ _ _ hne
  · show lookupKey (if (lookupKey st.totals f.file).isSome then st.totals
      else setKey st.totals f.file f.total_frames) g = lookupKey st.totals g
    by_cases ht : (lookupKey st.totals f.file).isSome
    · rw [if_pos ht]
    · rw [if_neg ht]
      exact lookupKey_setKey_ne _ _ _ _ hne

/-- A file absent from the surviving work set stays absent under a
reconcile step (steps only ever remove). -/
theorem resumeStep_files_mono (st : ResumeState) (f : ExportFrame)
    (g : FileItem) (h : g ∉ st.files) : g ∉ (resumeStep st f).files := by
  show g ∉ (if _ then st.files.filter fun x => decide (¬ x = f.file)
    else st.files)
  by_cases hc : lookupKey (if (lookupKey st.totals f.file).isSome
      then st.totals else setKey st.totals f.file f.total_frames) f.file =
        some ((lookupKey st.counts f.file).getD 0 + 1)
  · rw [if_pos hc]
    intro hmem
    exact h (List.mem_filter.mp hmem).1
  · rw [if_neg hc]
    exact h

/-- Folding reconcile steps over records of other files does not change the
lookups for `g`. -/
theorem foldl_resumeStep_other (xs : List ExportFrame) (st : ResumeState)
    (g : FileItem) (h : ∀ x ∈ xs, x.file ≠ g) :
    lookupKey (xs.foldl resumeStep st).counts g = lookupKey st.counts g ∧
    lookupKey (xs.foldl resumeStep st).totals g = lookupKey st.totals g := by
  induction xs generalizing st with
  | nil => exact ⟨rfl, rfl⟩
  | cons x rest ih =>
    obtain ⟨hc, ht⟩ := resumeStep_other_file st x g
      (h x (List.mem_cons_self _ _))
    obtain ⟨ihc, iht⟩ := ih (resumeStep st x)
      (fun y hy => h y (List.mem_cons_of_mem _ hy))
    exact ⟨ihc.trans hc, iht.trans ht⟩

/-- Absence from the work set is preserved by any sequence of reconcile
steps. -/
theorem foldl_resumeStep_files_mono (ys : List ExportFrame)
    (st : ResumeState) (g : FileItem) (h : g ∉ st.files) :
    g ∉ (ys.foldl resumeStep st).files := by
  induction ys generalizing st with
  | nil => exact h
  | cons y rest ih =>
    exact ih (resumeStep st y) (resumeStep_files_mono st y g h)

/-- C10: the error record `process_frames` emits for an `ErrFile` has
`frame_index = 0`, `total_frames = 1` and `shoot_time = None` (for videos
as for images); consequently `resume_from_checkpoint`, when it meets that
single record as the file's first record, finds `count = total_frames = 1`
and removes the file from the work set — a previously failed file is
treated as fully processed and is not retried. -/
theorem C10_err_record_resume_no_retry (iframe : Bool) (g : FileItem)
    (err : String) (all_files : List FileItem) (xs ys : List ExportFrame)
    (hxs : ∀ x ∈ xs, x.file ≠ g) :
    (errExportFrame iframe { file := g, error := err }).frame_index = 0 ∧
    (errExportFrame iframe { file := g, error := err }).total_frames = 1 ∧
    (errExportFrame iframe { file := g, error := err }).shoot_time = none ∧
    g ∉ resumeReconcile
      (xs ++ errExportFrame iframe { file := g, error := err } :: ys)
      all_files := by
  refine ⟨rfl, rfl, rfl, ?_⟩
  unfold resumeReconcile
  rw [List.foldl_append, List.foldl_cons]
  obtain ⟨hc, ht⟩ := foldl_resumeStep_other xs
    { counts := [], totals := [], files := all_files } g hxs
  apply foldl_resumeStep_files_mono
  refine resumeStep_removes _ _ _ rfl ?_ ?_ rfl
  · rw [hc]
    rfl
  · rw [ht]
    rfl

/-- Concrete failed video file used only by the C10 witness. -/
def c10File : FileItem :=
  { folder_id := 2, file_id := 5, file_path := "/data/clip.mp4" }

/-- Concrete unrelated file used only by the C10 witness. -/
def c10Other : FileItem :=
  { folder_id := 2, file_id := 6, file_path := "/data/other.mp4" }

/-- The error marker for `clip.mp4`, used only by the C10 witness. -/
def c10Err : ErrFile := { file := c10File, error := "decode failed" }

/-- Witness for C10: a checkpoint consisting of exactly one error record
for `clip.mp4` removes `clip.mp4` from the work set on resume. -/
theorem C10_err_record_resume_no_retry_witness :
    (∀ x ∈ ([] : List ExportFrame), x.file ≠ c10File) ∧
    ((errExportFrame true c10Err).frame_index = 0 ∧
      (errExportFrame true c10Err).total_frames = 1 ∧
      (errExportFrame true c10Err).shoot_time = none ∧
      c10File ∉ resumeReconcile
        ([] ++ errExportFrame true c10Err :: []) [c10File, c10Other]) :=
  ⟨by simp,
    C10_err_record_resume_no_retry true c10File "decode failed"
      [c10File, c10Other] [] [] (by simp)⟩


/-- Witness for amended C9 at a concrete input: the top box survives
agnostic NMS and, by the theorem, is one of the input boxes. -/
theorem C9_nms_subset_and_order_witness :
    c9Box1 ∈ nms [c9Box1, c9Box2, c9Box3] true 100 (1/2) ∧
    c9Box1 ∈ [c9Box1, c9Box2, c9Box3] := by
  have hmem : c9Box1 ∈ nms [c9Box1, c9Box2, c9Box3] true 100 (1/2) := by
    norm_num [nms, sortByScoreDesc, List.mergeSort, scoreDesc, nmsLoop,
      iou, Bbox.area, c9Box1, c9Box2, c9Box3]
  exact ⟨hmem,
    (C9_nms_subset_and_order [c9Box1, c9Box2, c9Box3] 100 (1/2)).1
      true c9Box1 hmem⟩

end Md5rs
